import Mathlib

/-!
Verification development for the Zefanilia-Bibles-Creator repository
(`Bible.py`, `main.py`, `utils.py`).

The development shallowly embeds the chapter-extraction engine, the catalog
resolver, the chapter scheduler and the XML writer.  Python strings are
modelled as `List Char`; bytes as `Nat`; Python exceptions as an explicit
`Except` error channel carrying the exception kind and the messages printed
before the exception propagated.  External collaborators (the HTTP transport
and the lxml tree navigation) are modelled by their observable interface: a
content leaf span is given by its text together with the chain of ancestor
elements, nearest first, exactly the data `i.getparent()` walks over.
-/

set_option autoImplicit false

namespace Zef

/-! ## Python string primitives -/

/-- Whitespace test used by Python `str.strip()` (ASCII whitespace; the
repository only ever strips markup text where these are the characters that
occur). -/
def isPySpace (c : Char) : Bool :=
  (c == ' ') || (c == '\t') || (c == '\n') ||
  (c == '\r') || (c == '\x0b') || (c == '\x0c')

/-- Drop leading Python whitespace. -/
def dropLeading : List Char → List Char
  | [] => []
  | c :: r => if isPySpace c then dropLeading r else c :: r

/-- Python `str.strip()`: remove leading and trailing whitespace. -/
def pyStrip (l : List Char) : List Char :=
  ((dropLeading ((dropLeading l).reverse)).reverse)

/-- Python `str.startswith(p)`. -/
def pyStartsWith : List Char → List Char → Bool
  | [], _ => true
  | _ :: _, [] => false
  | p :: ps, c :: cs => (p == c) && pyStartsWith ps cs

/-- Substring test (Python `in`), used only to state facts about produced
output text. -/
def containsSub : List Char → List Char → Bool
  | [], pat => pat.isEmpty
  | c :: rest, pat => pyStartsWith pat (c :: rest) || containsSub rest pat

/-- Python `str.split(sep)` for a one-character separator: splits at every
occurrence, keeping empty fields. -/
def pySplitOn (sep : Char) : List Char → List (List Char)
  | [] => [[]]
  | c :: rest =>
    if c = sep then [] :: pySplitOn sep rest
    else
      match pySplitOn sep rest with
      | [] => [[c]]
      | t :: ts => (c :: t) :: ts

/-- Python `str.replace('verse ', '')`: remove every (non-overlapping,
left-to-right) occurrence of the six characters `verse `. -/
def replaceVerseSpace : List Char → List Char
  | 'v' :: 'e' :: 'r' :: 's' :: 'e' :: ' ' :: rest => replaceVerseSpace rest
  | c :: rest => c :: replaceVerseSpace rest
  | [] => []

/-- Python `str.replace('verse v', '')`: remove every occurrence of the seven
characters `verse v`. -/
def replaceVerseV : List Char → List Char
  | 'v' :: 'e' :: 'r' :: 's' :: 'e' :: ' ' :: 'v' :: rest => replaceVerseV rest
  | c :: rest => c :: replaceVerseV rest
  | [] => []

/-- Python `str.replace(c, new)` for a one-character pattern. -/
def pyReplaceChar (pat : Char) (new : List Char) : List Char → List Char
  | [] => []
  | c :: rest => (if c = pat then new else [c]) ++ pyReplaceChar pat new rest

/-- Decimal digit character. -/
def digitChar : Nat → Char
  | 0 => '0' | 1 => '1' | 2 => '2' | 3 => '3' | 4 => '4'
  | 5 => '5' | 6 => '6' | 7 => '7' | 8 => '8' | _ => '9'

/-- Fuel-indexed decimal printing (fuel keeps the recursion structural, so
that concrete values reduce by `rfl`). -/
def natCharsAux : Nat → Nat → List Char
  | 0, _ => []
  | fuel + 1, n =>
    if n < 10 then [digitChar n]
    else natCharsAux fuel (n / 10) ++ [digitChar (n % 10)]

/-- Decimal representation of a natural number, as Python `str(n)` prints it. -/
def natChars (n : Nat) : List Char := natCharsAux (n + 1) n

/-- Decimal representation of an integer, as Python `str(i)` prints it. -/
def intChars : Int → List Char
  | .ofNat n => natChars n
  | .negSucc n => '-' :: natChars (n + 1)

/-- Value of a digit string (no validation). -/
def digitsVal (l : List Char) : Nat :=
  l.foldl (fun a c => 10 * a + (c.toNat - 48)) 0

/-- Parse a non-empty all-digit string. -/
def digitsOpt (l : List Char) : Option Nat :=
  if l.isEmpty then none
  else if l.all Char.isDigit then some (digitsVal l) else none

/-- Python `int(s)`: strip whitespace, allow one sign, then decimal digits;
anything else raises `ValueError` (modelled as `none`). -/
def pyInt (s : List Char) : Option Int :=
  let t := pyStrip s
  if t.head? = some '+' then (digitsOpt (t.drop 1)).map (fun m => (m : Int))
  else if t.head? = some '-' then (digitsOpt (t.drop 1)).map (fun m => -(m : Int))
  else (digitsOpt t).map (fun m => (m : Int))

/-- Python `str.upper()` (ASCII, as used on ISO language codes). -/
def pyUpper (l : List Char) : List Char := l.map Char.toUpper

/-- Number of leading space characters of a line. -/
def leadingSpaces : List Char → Nat
  | [] => 0
  | c :: r => if c = ' ' then leadingSpaces r + 1 else 0

/-- Python `' ' * n`. -/
def spaces (n : Nat) : List Char := List.replicate n ' '

/-! ## Exceptions -/

/-- Kinds of Python exceptions the embedded code can raise. -/
inductive PyExc where
  | keyError
  | attributeError
  | valueError
  | indexError
  deriving DecidableEq, Repr

/-- A propagated exception together with the diagnostic lines printed before
it escaped (`print(text_tag.text, text_tag.attrib)` in `findVerseParent`).
Each log entry records the printed text and the element's class attribute. -/
structure Failure where
  exc : PyExc
  logged : List (List Char × Option (List Char))
  deriving DecidableEq, Repr

/-! ## The verse extractor (`Bible.Chapter.__init__`) -/

/-- An HTML element as the extractor sees it: its `class` attribute (absent
attribute modelled as `none`, read via `attrib['class']` which raises
`KeyError` when absent) and its text (lxml `.text`, `None` when absent). -/
structure Elem where
  cls : Option (List Char)
  text : Option (List Char)
  deriving DecidableEq, Repr

/-- A content leaf span selected by the XPath
`//span/span[@class="content"]`: its text, and the chain of ancestor
elements from the immediate parent up to the document root, in the order
`getparent()` visits them.  The XPath selection itself (document order,
`class` exactly `content`, parent a `span`) is lxml functionality, external
to the embedded code. -/
structure Leaf where
  text : Option (List Char)
  anc : List Elem
  deriving DecidableEq, Repr

/-- Count of the character `v` in a class string
(`parent.attrib['class'].count('v')`). -/
def countV (l : List Char) : Nat := l.count 'v'

/-- Test `verse_class.startswith('verse v')`. -/
def startsVerseVB (l : List Char) : Bool := pyStartsWith ("verse v").data l

/-- The `findVerseParent` helper: walk up from `text_tag` until an element
whose class starts with `verse v` is found.

The Python loop reads `text_tag.attrib['class']` each step inside a bare
`try`.  Two exceptions can occur: `KeyError` when an element has no class
attribute, and `AttributeError` when the walk has passed the root
(`getparent()` returned `None`, so `None.attrib` fails).  The handler then
evaluates `text_tag.text.strip()` — which itself raises `AttributeError`
when `text_tag` is `None` (nothing is printed) or when its `.text` is
`None` — and prints `text_tag.text, text_tag.attrib` only when the stripped
text is non-empty, before re-raising. -/
def findVerseParent : List Elem → Except Failure Elem
  | [] => .error ⟨.attributeError, []⟩
  | e :: rest =>
    match e.cls with
    | none =>
      match e.text with
      | none => .error ⟨.attributeError, []⟩
      | some t =>
        if pyStrip t = [] then .error ⟨.keyError, []⟩
        else .error ⟨.keyError, [(t, none)]⟩
    | some c => if startsVerseVB c then .ok e else findVerseParent rest

/-- Option-valued traversal (Python generator feeding `min`: the first
failing `int(x)` raises). -/
def mapO {α β : Type} (f : α → Option β) : List α → Option (List β)
  | [] => some []
  | x :: xs =>
    match f x with
    | none => none
    | some y =>
      match mapO f xs with
      | none => none
      | some ys => some (y :: ys)

/-- The `findMinVerse` helper:
`verse.replace('verse ','').replace('v','')` then
`min(int(x) for x in verse.split(' '))`; a failing `int` or an empty
`min` argument raises `ValueError` (modelled as `none`). -/
def findMinVerse (c : List Char) : Option Int :=
  match mapO pyInt (pySplitOn ' ' (pyReplaceChar 'v' [] (replaceVerseSpace c))) with
  | none => none
  | some [] => none
  | some (x :: xs) => some (List.foldl min x xs)

/-- Turn the class string of the (found or confirmed) verse element into a
verse number: `findMinVerse` when it has more than 2 `v` characters,
otherwise `int(cls.replace('verse v',''))`. -/
def classToVerse (c : List Char) : Except Failure Int :=
  if countV c > 2 then
    match findMinVerse c with
    | none => .error ⟨.valueError, []⟩
    | some v => .ok v
  else
    match pyInt (replaceVerseV c) with
    | none => .error ⟨.valueError, []⟩
    | some v => .ok v

/-- Verse-number resolution for one leaf (loop body lines 198-208):
read the immediate parent's class (a missing attribute raises `KeyError`,
uncaught here), walk up via `findVerseParent` when it has fewer than two
`v` characters, then parse the class of the resulting element. -/
def resolveVerse (anc : List Elem) : Except Failure Int :=
  match anc with
  | [] => .error ⟨.attributeError, []⟩
  | parent :: rest =>
    match parent.cls with
    | none => .error ⟨.keyError, []⟩
    | some c0 =>
      if countV c0 < 2 then
        match findVerseParent (parent :: rest) with
        | .error f => .error f
        | .ok p =>
          match p.cls with
          | none => .error ⟨.keyError, []⟩
          | some c => classToVerse c
      else classToVerse c0

/-- Resolution of one leaf to its `(verse, raw text)` pair: the verse is
resolved first; then `i.text.strip()` is evaluated, raising
`AttributeError` when `i.text` is `None`. -/
def resolveLeaf (lf : Leaf) : Except Failure (Int × List Char) :=
  match resolveVerse lf.anc with
  | .error f => .error f
  | .ok v =>
    match lf.text with
    | none => .error ⟨.attributeError, []⟩
    | some t => .ok (v, t)

/-- `self.verses[verse] += s` on a `defaultdict(str)`: append to the entry
when the key exists, otherwise insert the key at the end with value `s`. -/
def appendVal (m : List (Int × List Char)) (k : Int) (s : List Char) :
    List (Int × List Char) :=
  match m with
  | [] => [(k, s)]
  | (k', v) :: rest =>
    if k' = k then (k', v ++ s) :: rest else (k', v) :: appendVal rest k s

/-- One iteration of the accumulation (line 210-212):
`self.verses[verse] += ' '+i.text.strip() if last_verse == verse else
i.text.strip()`, then `last_verse = verse`.  The initial `last_verse` is
`''`, which compares unequal to every verse number, modelled as `none`. -/
def versesStep (st : List (Int × List Char) × Option Int)
    (p : Int × List Char) : List (Int × List Char) × Option Int :=
  let t := pyStrip p.2
  (appendVal st.1 p.1 (if st.2 = some p.1 then ' ' :: t else t), some p.1)

/-- The verses mapping accumulated over the resolved leaves in scan order. -/
def versesMapOf (ps : List (Int × List Char)) : List (Int × List Char) :=
  (ps.foldl versesStep ([], none)).1

/-- Sequential effectful map; models a Python loop that stops at the first
raised exception. -/
def mapE {ε α β : Type} (f : α → Except ε β) : List α → Except ε (List β)
  | [] => .ok []
  | x :: xs =>
    match f x with
    | .error e => .error e
    | .ok y =>
      match mapE f xs with
      | .error e => .error e
      | .ok ys => .ok (y :: ys)

/-- Chapter extraction over the document-order list of content leaves: each
leaf is resolved and accumulated in turn; the first exception aborts the
chapter with no result (the partially filled dict is local to the failed
constructor, so interleaving resolution with accumulation is observably the
sequential composition modelled here). -/
def extractChapter (leaves : List Leaf) : Except Failure (List (Int × List Char)) :=
  match mapE resolveLeaf leaves with
  | .error f => .error f
  | .ok ps => .ok (versesMapOf ps)

/-- First-match association lookup (keys in the verses dict are unique). -/
def lookupV (m : List (Int × List Char)) (k : Int) : Option (List Char) :=
  match m with
  | [] => none
  | (k', v) :: rest => if k' = k then some v else lookupV rest k

/-- `Chapter.__getitem__` / `Chapter.get_verse(verse)`:
`self.verses[key]` on a `defaultdict(str)` returns the stored text, but on a
missing key it *inserts* the key with value `''` and returns that.  The
result is the returned text together with the mapping afterwards. -/
def chapterGetItem (m : List (Int × List Char)) (k : Int) :
    List Char × List (Int × List Char) :=
  match lookupV m k with
  | some s => (s, m)
  | none => ([], m ++ [(k, [])])

/-- `Chapter.__iter__`: iteration over the dict yields its keys in insertion
order (no mutation). -/
def chapterIter (m : List (Int × List Char)) : List Int := m.map Prod.fst

/-- `Chapter.__len__`. -/
def chapterLen (m : List (Int × List Char)) : Nat := m.length

/-! ## The markup unescaper (`utils.decodeHtml`)

`decodeHtml(text)` is `text.encode('utf-8').decode('unicode_escape')`:
UTF-8 encode the string to bytes, then decode those bytes with Python's
`unicode_escape` codec.  That codec resolves backslash escapes, and maps
every byte outside an escape to the code point equal to the byte value
(Latin-1) — it performs no UTF-8 reinterpretation.  The output is a
sequence of code points (`List Nat`: Python strings may contain lone
surrogates that `Char` cannot represent).  `\N{name}` escapes, which need
the Unicode name database, are not modelled; no claim exercises them. -/

/-- UTF-8 encoding of one code point (`str.encode('utf-8')`). -/
def utf8Bytes (c : Char) : List Nat :=
  let n := c.toNat
  if n < 128 then [n]
  else if n < 2048 then [192 + n / 64, 128 + n % 64]
  else if n < 65536 then [224 + n / 4096, 128 + (n / 64) % 64, 128 + n % 64]
  else [240 + n / 262144, 128 + (n / 4096) % 64, 128 + (n / 64) % 64, 128 + n % 64]

/-- UTF-8 encoding of a string. -/
def utf8Encode : List Char → List Nat
  | [] => []
  | c :: r => utf8Bytes c ++ utf8Encode r

/-- Value of a hexadecimal digit byte. -/
def hexVal (b : Nat) : Option Nat :=
  if 48 ≤ b ∧ b ≤ 57 then some (b - 48)
  else if 97 ≤ b ∧ b ≤ 102 then some (b - 87)
  else if 65 ≤ b ∧ b ≤ 70 then some (b - 55)
  else none

/-- Octal digit test. -/
def isOct (b : Nat) : Bool := 48 ≤ b && b ≤ 55

/-- One escape after a backslash, for Python's `unicode_escape` codec:
line continuation, `\\`, `\'`, `\"`, `\a\b\f\n\r\t\v`, up to three octal
digits, `\xhh`, `\uhhhh`, `\Uhhhhhhhh` (rejecting values above `0x10FFFF`);
an unrecognised escape keeps the backslash and the following byte; a
truncated escape (or a trailing lone backslash) raises a decode error,
modelled as `none`.  The result is the code points the escape contributes
together with the remaining bytes. -/
def escStep : List Nat → Option (List Nat × List Nat)
  | [] => none
  | e :: r =>
    if e = 10 then some ([], r)
    else if e = 92 then some ([92], r)
    else if e = 39 then some ([39], r)
    else if e = 34 then some ([34], r)
    else if e = 97 then some ([7], r)
    else if e = 98 then some ([8], r)
    else if e = 102 then some ([12], r)
    else if e = 110 then some ([10], r)
    else if e = 114 then some ([13], r)
    else if e = 116 then some ([9], r)
    else if e = 118 then some ([11], r)
    else if e = 120 then
      match r with
      | h1 :: h2 :: r2 =>
        match hexVal h1, hexVal h2 with
        | some a, some b => some ([16 * a + b], r2)
        | _, _ => none
      | _ => none
    else if e = 117 then
      match r with
      | h1 :: h2 :: h3 :: h4 :: r2 =>
        match hexVal h1, hexVal h2, hexVal h3, hexVal h4 with
        | some a, some b, some c, some d =>
          some ([4096 * a + 256 * b + 16 * c + d], r2)
        | _, _, _, _ => none
      | _ => none
    else if e = 85 then
      match r with
      | h1 :: h2 :: h3 :: h4 :: h5 :: h6 :: h7 :: h8 :: r2 =>
        match hexVal h1, hexVal h2, hexVal h3, hexVal h4,
              hexVal h5, hexVal h6, hexVal h7, hexVal h8 with
        | some a, some b, some c, some d, some a2, some b2, some c2, some d2 =>
          let v := 268435456 * a + 16777216 * b + 1048576 * c + 65536 * d +
                   4096 * a2 + 256 * b2 + 16 * c2 + d2
          if v ≤ 1114111 then some ([v], r2) else none
        | _, _, _, _, _, _, _, _ => none
      | _ => none
    else if e = 78 then none
    else if isOct e then
      match r with
      | d2 :: r2 =>
        if isOct d2 then
          match r2 with
          | d3 :: r3 =>
            if isOct d3 then
              some ([64 * (e - 48) + 8 * (d2 - 48) + (d3 - 48)], r3)
            else some ([8 * (e - 48) + (d2 - 48)], r2)
          | [] => some ([8 * (e - 48) + (d2 - 48)], r2)
        else some ([e - 48], r)
      | [] => some ([e - 48], r)
    else some ([92, e], r)

def uescapeGo : Nat → List Nat → Option (List Nat)
  | _, [] => some []
  | 0, _ :: _ => none
  | f + 1, b :: rest =>
    if b = 92 then
      match escStep rest with
      | none => none
      | some (out, r2) => (uescapeGo f r2).map (fun t => out ++ t)
    else (uescapeGo f rest).map (fun t => b :: t)

/-- Python's `unicode_escape` codec: every step consumes at least one byte,
so the input length is sufficient fuel and `uescapeGo` never hits the
fuel-exhaustion branch. -/
def uescape (bs : List Nat) : Option (List Nat) := uescapeGo bs.length bs

/-- `utils.decodeHtml`: `text.encode('utf-8').decode('unicode_escape')`. -/
def decodeHtml (s : List Char) : Option (List Nat) :=
  uescape (utf8Encode s)

/-! ## The catalog resolver (`Bible.__init__`, `Bible.Book.__init__`) -/

/-- One entry of the version metadata's book list: `usfm`, `human_long`,
the `canonical` flags of its chapter entries, and `abbreviation` (JSON
`null` modelled as `none`). -/
structure BookMeta where
  usfm : List Char
  human_long : List Char
  chapters : List Bool
  abbreviation : Option (List Char)
  deriving DecidableEq, Repr

/-- Version metadata as fetched from
`https://www.bible.com/api/bible/version/{id}`. -/
structure VersionData where
  local_title : List Char
  local_abbreviation : List Char
  publisher_name : List Char
  iso_639_3 : List Char
  copyright_short : List Char
  books : List BookMeta
  deriving DecidableEq, Repr

/-- A fully constructed `Bible.Book`. -/
structure Book where
  bible : Int
  length : Nat
  id : List Char
  abrev : List Char
  name : List Char
  deriving DecidableEq, Repr

/-- Python `str.replace('.', '')` used on the abbreviation. -/
def stripDots (l : List Char) : List Char := pyReplaceChar '.' [] l

/-- `Bible.Book.__init__`.  Attributes are assigned in source order:
`self.bible` first, then — only after the `length is None` fallback block —
`self.__length`, `self.id`, `self.abrev`, `self.name`.  The fallback block
evaluates `next(filter(lambda i: i['usfm'] == self.id, data['books']))`, but
`self.id` has not been assigned yet at that point, so the standalone
construction always raises `AttributeError` before using the fetched data.
When `abrev` is `None` (its default), `abrev.replace('.','')` raises
`AttributeError` as well. -/
def bookInit (book_id name_book : List Char) (bible_id : Int)
    (length : Option Nat) (abrev : Option (List Char))
    (fetchVersion : Int → VersionData) : Except PyExc Book :=
  match length with
  | none =>
    let _data := fetchVersion bible_id
    .error .attributeError
  | some len =>
    match abrev with
    | none => .error .attributeError
    | some a =>
      .ok { bible := bible_id, length := len, id := book_id,
            abrev := stripDots a, name := name_book }

/-- `len([ch for ch in i['chapters'] if ch['canonical']])`. -/
def countCanonical (chs : List Bool) : Nat := (chs.filter id).length

/-- The `self.__hashMap[i['usfm']] = idx; idx += 1` loop: insertion-order
association list from usfm code to list index. -/
def buildMap (idx : Nat) : List BookMeta → List (List Char × Nat)
  | [] => []
  | m :: rest => (m.usfm, idx) :: buildMap (idx + 1) rest

/-- Python dict lookup (last assignment to a key wins). -/
def lookupLast (m : List (List Char × Nat)) (k : List Char) : Option Nat :=
  match m with
  | [] => none
  | (k', v) :: rest =>
    match lookupLast rest k with
    | some r => some r
    | none => if k' = k then some v else none

/-- A fully constructed `Bible`. -/
structure BibleS where
  id : Int
  name : List Char
  abrev : List Char
  author : List Char
  lang : List Char
  description : List Char
  hashMap : List (List Char × Nat)
  books : List Book
  deriving DecidableEq, Repr

/-- `Bible.__init__` applied to already-fetched version metadata: build the
book list (each book gets the count of its canonical chapters and its
abbreviation) and the usfm-to-index map.  `self.__hashMap` is a
`defaultdict(int)`, so a missing key later reads as index `0`. -/
def bibleInit (bible_id : Int) (data : VersionData) : Except PyExc BibleS :=
  match mapE (fun m => bookInit m.usfm m.human_long bible_id
      (some (countCanonical m.chapters)) m.abbreviation (fun _ => data))
      data.books with
  | .error e => .error e
  | .ok books =>
    .ok { id := bible_id, name := data.local_title,
          abrev := data.local_abbreviation, author := data.publisher_name,
          lang := data.iso_639_3, description := data.copyright_short,
          hashMap := buildMap 0 data.books, books := books }

/-- `Bible.get_book` (and `Bible.__getitem__`, which delegates to it):
`self.books[self.__hashMap[book]]`.  The `defaultdict(int)` yields `0` for a
missing key; indexing an empty book list raises `IndexError`. -/
def get_book (b : BibleS) (key : List Char) : Except PyExc Book :=
  match b.books.get? ((lookupLast b.hashMap key).getD 0) with
  | none => .error .indexError
  | some bk => .ok bk

/-! ## The chapter scheduler (`Bible.Book.get_async_chapters`) -/

/-- `get_async_chapters`: submit `Bible.Chapter(self.id, ch, self.bible)`
for every chapter `1..length` to a pool of 20 workers and collect results
keyed by chapter number; `future.result()` re-raises the first exception
encountered.  Completion order is nondeterministic; the model uses
submission order (`1..length`), which fixes only which of several pending
failures propagates and, on success, the dict's iteration order — none of
the proved facts depend on that choice.  `fetchCh ch` stands for the whole
fetch-plus-extract of one chapter (network transport plus
`extractChapter`). -/
def getAsyncChapters (fetchCh : Nat → Except Failure (List (Int × List Char)))
    (len : Nat) : Except Failure (List (Nat × List (Int × List Char))) :=
  mapE (fun ch =>
    match fetchCh ch with
    | .error e => .error e
    | .ok m => .ok (ch, m)) (List.range' 1 len)

/-! ## The Zefania XML writer (`main.writeFile`) -/

/-- The header template (triple-quoted f-string of `writeFile`), with the
language code upper-cased. -/
def headerStr (b : BibleS) : List Char :=
  ("<XMLBIBLE biblename=\"").data ++ b.name ++
  ("\" revision=\"99\" status=\"v\" version=\"2.0.1.18\" type=\"x-bible\" p1:noNamespaceSchemaLocation=\"zef2005.xsd\" xmlns:p1=\"http://www.w3.org/2001/XMLSchema-instance\">\n<INFORMATION>\n<title>").data ++
  b.name ++ ("</title>\n<creator/>\n<subject/>\n<identifier>").data ++
  b.abrev ++ ("</identifier>\n<description>").data ++ b.description ++
  ("</description>\n<publisher>").data ++ b.author ++
  ("</publisher>\n<date/>\n<language>").data ++ pyUpper b.lang ++
  ("</language>\n<type>Bible</type>\n</INFORMATION>\n").data

/-- `' '*2 + f'<BIBLEBOOK bnumber="{idx}" bname="{book.name}" bsname="{book.abrev}">\n'`. -/
def bookLine (idx : Nat) (bk : Book) : List Char :=
  spaces 2 ++ ("<BIBLEBOOK bnumber=\"").data ++ natChars idx ++
  ("\" bname=\"").data ++ bk.name ++ ("\" bsname=\"").data ++ bk.abrev ++
  ("\">\n").data

/-- `' '*4 + f'<CHAPTER cnumber="{chapter}">\n'`. -/
def chOpen (ch : Nat) : List Char :=
  spaces 4 ++ ("<CHAPTER cnumber=\"").data ++ natChars ch ++ ("\">\n").data

/-- `' '*6 + f' <VERS vnumber="{verse}">{text}</VERS>\n'` — note the f-string
itself starts with one further space. -/
def versLine (v : Int) (t : List Char) : List Char :=
  spaces 6 ++ (" <VERS vnumber=\"").data ++ intChars v ++ ("\">").data ++ t ++
  ("</VERS>\n").data

/-- `' '*4 + '</CHAPTER>\n'`. -/
def chClose : List Char := spaces 4 ++ ("</CHAPTER>\n").data

/-- `' '*2 + '</BIBLEBOOK>\n'`. -/
def bookClose : List Char := spaces 2 ++ ("</BIBLEBOOK>\n").data

/-- `'</XMLBIBLE>'`. -/
def footer : List Char := ("</XMLBIBLE>").data

/-- The verse loop of one chapter (dict iteration in insertion order). -/
def writeVerses (m : List (Int × List Char)) : List Char :=
  match m with
  | [] => []
  | (v, t) :: rest => versLine v t ++ writeVerses rest

/-- The chapter loop of one book. -/
def writeChapters : List (Nat × List (Int × List Char)) → List Char
  | [] => []
  | (ch, m) :: rest => chOpen ch ++ writeVerses m ++ chClose ++ writeChapters rest

/-- The book loop of `writeFile`, returning the text written so far and the
exception, if any, that escaped.  Per iteration the code first writes the
`BIBLEBOOK` opening line, then evaluates
`bible[book].get_async_chapters()`.  `bible[book]` passes the `Book`
*object* to `get_book`, whose string-keyed `defaultdict(int)` never
contains it, so the index defaults to `0`: every iteration fetches the
chapters of the *first* book (`first`).  A failure escapes immediately,
leaving everything written so far in the (closed) file. -/
def writeFileGo (fetch : List Char → Nat → Except Failure (List (Int × List Char)))
    (first : Book) : Nat → List Book → List Char × Option Failure
  | _, [] => ([], none)
  | idx, book :: rest =>
    match getAsyncChapters (fetch first.id) first.length with
    | .error e => (bookLine idx book, some e)
    | .ok cs =>
      match writeFileGo fetch first (idx + 1) rest with
      | (t, err) => (bookLine idx book ++ writeChapters cs ++ bookClose ++ t, err)

/-- `main.writeFile`: header, the book loop (enumerated from 1), and — when
every book succeeded — the footer.  The result is the full content written
to `Bibles/<abbrev>.xml` together with the exception that aborted the run,
if any (the context manager closes the file either way, so on failure the
partial content remains on disk). -/
def writeFile (b : BibleS)
    (fetch : List Char → Nat → Except Failure (List (Int × List Char))) :
    List Char × Option Failure :=
  match b.books with
  | [] => (headerStr b ++ footer, none)
  | first :: _ =>
    match writeFileGo fetch first 1 b.books with
    | (body, none) => (headerStr b ++ body ++ footer, none)
    | (body, some e) => (headerStr b ++ body, some e)

/-- Split output text into lines (analysis helper, not source code). -/
def splitNl (s : List Char) : List (List Char) := pySplitOn '\n' s

/-- Leading-space counts of the output lines containing a given tag
(analysis helper). -/
def tagIndents (s : List Char) (tag : List Char) : List Nat :=
  ((splitNl s).filter (fun l => containsSub l tag)).map leadingSpaces

/-! ## Spec-side constructions for the claims -/

/-- Modelled from the spec: a single verse-class token `v<N>`. -/
def mkVerseTok (n : Nat) : List Char := 'v' :: natChars n

/-- Modelled from the spec: the continuation of a multi-token class string,
one space-separated `v<N>` token per element. -/
def mkRest : List Nat → List Char
  | [] => []
  | m :: ms => ' ' :: (mkVerseTok m ++ mkRest ms)

/-- Modelled from the spec: a well-formed range class string
`verse v<n> v<m> …` (leading `verse ` prefix, then space-separated `v<N>`
tokens). -/
def mkClass (n : Nat) (ns : List Nat) : List Char :=
  ("verse ").data ++ (mkVerseTok n ++ mkRest ns)

/-- Boolean error test on `Except`. -/
def isErrB {ε α : Type} : Except ε α → Bool
  | .error _ => true
  | .ok _ => false

/-- Last element of a list, if any (used to state which verse the
immediately preceding leaf span was assigned). -/
def lastOpt {α : Type} : List α → Option α
  | [] => none
  | [x] => some x
  | _ :: y :: r => lastOpt (y :: r)

/-! ## String lemmas -/

theorem pyStartsWith_append_self (p x : List Char) :
    pyStartsWith p (p ++ x) = true := by
  induction p with
  | nil => rfl
  | cons c ps ih => simp [pyStartsWith, ih]

theorem replaceVerseSpace_of_not_e {l : List Char} (h : 'e' ∉ l) :
    replaceVerseSpace l = l := by
  induction l with
  | nil => rfl
  | cons c rest ih =>
    have h2 : 'e' ∉ rest := fun hm => h (List.mem_cons_of_mem _ hm)
    have hguard : ∀ (r1 : List Char), c = 'v' →
        rest = 'e' :: 'r' :: 's' :: 'e' :: ' ' :: r1 → False := by
      intro r1 _ hr
      exact h2 (by rw [hr]; exact List.mem_cons_self _ _)
    rw [replaceVerseSpace.eq_2 c rest hguard, ih h2]

theorem replaceVerseV_of_not_e {l : List Char} (h : 'e' ∉ l) :
    replaceVerseV l = l := by
  induction l with
  | nil => rfl
  | cons c rest ih =>
    have h2 : 'e' ∉ rest := fun hm => h (List.mem_cons_of_mem _ hm)
    have hguard : ∀ (r1 : List Char), c = 'v' →
        rest = 'e' :: 'r' :: 's' :: 'e' :: ' ' :: 'v' :: r1 → False := by
      intro r1 _ hr
      exact h2 (by rw [hr]; exact List.mem_cons_self _ _)
    rw [replaceVerseV.eq_2 c rest hguard, ih h2]

theorem pyReplaceChar_append (pat : Char) (new a b : List Char) :
    pyReplaceChar pat new (a ++ b) =
      pyReplaceChar pat new a ++ pyReplaceChar pat new b := by
  induction a with
  | nil => rfl
  | cons c rest ih => simp [pyReplaceChar, ih]

theorem pyReplaceChar_of_not_mem {pat : Char} (new : List Char)
    {l : List Char} (h : pat ∉ l) : pyReplaceChar pat new l = l := by
  induction l with
  | nil => rfl
  | cons c rest ih =>
    have hc : ¬ c = pat := fun hc => h (hc ▸ List.mem_cons_self c rest)
    have h2 : pat ∉ rest := fun hm => h (List.mem_cons_of_mem _ hm)
    simp [pyReplaceChar, hc, ih h2]

theorem pySplitOn_of_not_mem {sep : Char} {l : List Char} (h : sep ∉ l) :
    pySplitOn sep l = [l] := by
  induction l with
  | nil => rfl
  | cons c rest ih =>
    have hc : ¬ c = sep := fun hc => h (hc ▸ List.mem_cons_self c rest)
    have h2 : sep ∉ rest := fun hm => h (List.mem_cons_of_mem _ hm)
    simp [pySplitOn, hc, ih h2]

theorem pySplitOn_across {sep : Char} {a : List Char} (t : List Char)
    (h : sep ∉ a) : pySplitOn sep (a ++ sep :: t) = a :: pySplitOn sep t := by
  induction a with
  | nil => simp [pySplitOn]
  | cons c rest ih =>
    have hc : ¬ c = sep := fun hc => h (hc ▸ List.mem_cons_self c rest)
    have h2 : sep ∉ rest := fun hm => h (List.mem_cons_of_mem _ hm)
    simp only [List.cons_append, pySplitOn, hc, if_false]
    rw [show rest.append (sep :: t) = rest ++ sep :: t from rfl, ih h2]

theorem digitChar_isDigit (n : Nat) : (digitChar n).isDigit = true := by
  unfold digitChar
  split <;> decide

theorem digitChar_val {n : Nat} (h : n < 10) : (digitChar n).toNat - 48 = n := by
  interval_cases n <;> decide

theorem natCharsAux_digits {f n : Nat} (h : n < f) :
    ∀ c ∈ natCharsAux f n, c.isDigit = true := by
  induction f generalizing n with
  | zero => omega
  | succ f ih =>
    intro c hc
    rw [natCharsAux] at hc
    by_cases h10 : n < 10
    · simp only [h10, if_true, List.mem_singleton] at hc
      exact hc ▸ digitChar_isDigit n
    · simp only [h10, if_false, List.mem_append, List.mem_singleton] at hc
      rcases hc with hc | hc
      · exact ih (by omega : n / 10 < f) c hc
      · exact hc ▸ digitChar_isDigit (n % 10)

theorem natChars_digits (n : Nat) : ∀ c ∈ natChars n, c.isDigit = true :=
  natCharsAux_digits (Nat.lt_succ_self n)

theorem natCharsAux_ne_nil {f n : Nat} (h : n < f) : natCharsAux f n ≠ [] := by
  cases f with
  | zero => omega
  | succ f =>
    rw [natCharsAux]
    by_cases h10 : n < 10 <;> simp [h10]

theorem natChars_ne_nil (n : Nat) : natChars n ≠ [] :=
  natCharsAux_ne_nil (Nat.lt_succ_self n)

theorem digitsVal_append_single (a : List Char) (c : Char) :
    digitsVal (a ++ [c]) = 10 * digitsVal a + (c.toNat - 48) := by
  simp [digitsVal, List.foldl_append]

theorem natCharsAux_val {f n : Nat} (h : n < f) :
    digitsVal (natCharsAux f n) = n := by
  induction f generalizing n with
  | zero => omega
  | succ f ih =>
    rw [natCharsAux]
    by_cases h10 : n < 10
    · simp only [h10, if_true]
      show 10 * 0 + ((digitChar n).toNat - 48) = n
      rw [digitChar_val h10]
      omega
    · simp only [h10, if_false, digitsVal_append_single]
      rw [ih (by omega : n / 10 < f), digitChar_val (Nat.mod_lt n (by omega))]
      omega

theorem natChars_val (n : Nat) : digitsVal (natChars n) = n :=
  natCharsAux_val (Nat.lt_succ_self n)

theorem isDigit_not_pySpace {c : Char} (h : c.isDigit = true) :
    isPySpace c = false := by
  unfold isPySpace
  simp only [Bool.or_eq_false_iff, beq_eq_false_iff_ne]
  refine ⟨⟨⟨⟨⟨?_, ?_⟩, ?_⟩, ?_⟩, ?_⟩, ?_⟩ <;>
    (intro he; rw [he] at h; exact absurd h (by decide))

theorem isDigit_ne_v {c : Char} (h : c.isDigit = true) : c ≠ 'v' := by
  intro hv
  rw [hv] at h
  exact absurd h (by decide)

theorem isDigit_ne_e {c : Char} (h : c.isDigit = true) : c ≠ 'e' := by
  intro hv
  rw [hv] at h
  exact absurd h (by decide)

theorem isDigit_ne_space {c : Char} (h : c.isDigit = true) : c ≠ ' ' := by
  intro hv
  rw [hv] at h
  exact absurd h (by decide)

theorem isDigit_ne_plus {c : Char} (h : c.isDigit = true) : c ≠ '+' := by
  intro hv
  rw [hv] at h
  exact absurd h (by decide)

theorem isDigit_ne_minus {c : Char} (h : c.isDigit = true) : c ≠ '-' := by
  intro hv
  rw [hv] at h
  exact absurd h (by decide)

theorem dropLeading_of_no_space {l : List Char}
    (h : ∀ c ∈ l, isPySpace c = false) : dropLeading l = l := by
  cases l with
  | nil => rfl
  | cons c rest => simp [dropLeading, h c (List.mem_cons_self c rest)]

theorem pyStrip_of_no_space {l : List Char}
    (h : ∀ c ∈ l, isPySpace c = false) : pyStrip l = l := by
  unfold pyStrip
  rw [dropLeading_of_no_space h]
  rw [dropLeading_of_no_space (fun c hc => h c (List.mem_reverse.mp hc))]
  exact List.reverse_reverse l

theorem digitsOpt_of_digits {l : List Char} (hne : l ≠ [])
    (h : ∀ c ∈ l, c.isDigit = true) : digitsOpt l = some (digitsVal l) := by
  unfold digitsOpt
  rw [if_neg (by simpa [List.isEmpty_iff] using hne), if_pos (by
    rw [List.all_eq_true]
    intro c hc
    exact h c hc)]

/-- `int` applied to a plain digit string returns its value. -/
theorem pyInt_digits {l : List Char} (hne : l ≠ [])
    (h : ∀ c ∈ l, c.isDigit = true) : pyInt l = some ((digitsVal l : Nat) : Int) := by
  unfold pyInt
  rw [pyStrip_of_no_space (fun c hc => isDigit_not_pySpace (h c hc))]
  cases l with
  | nil => exact absurd rfl hne
  | cons d ds =>
    have hd := h d (List.mem_cons_self d ds)
    rw [if_neg (by
      simp only [List.head?, Option.some.injEq]
      exact isDigit_ne_plus hd)]
    rw [if_neg (by
      simp only [List.head?, Option.some.injEq]
      exact isDigit_ne_minus hd)]
    rw [digitsOpt_of_digits (by simp) h]
    rfl

theorem pyInt_natChars (n : Nat) : pyInt (natChars n) = some ((n : Nat) : Int) := by
  rw [pyInt_digits (natChars_ne_nil n) (natChars_digits n), natChars_val]

/-! ## Range-class analysis (claim C2) -/

/-- Shape of the digit groups left once all `v` characters are removed. -/
def mkDigitsRest : List Nat → List Char
  | [] => []
  | m :: ms => ' ' :: (natChars m ++ mkDigitsRest ms)

theorem natChars_no_v (n : Nat) : 'v' ∉ natChars n :=
  fun hm => isDigit_ne_v (natChars_digits n 'v' hm) rfl

theorem natChars_no_e (n : Nat) : 'e' ∉ natChars n :=
  fun hm => isDigit_ne_e (natChars_digits n 'e' hm) rfl

theorem natChars_no_space (n : Nat) : ' ' ∉ natChars n :=
  fun hm => isDigit_ne_space (natChars_digits n ' ' hm) rfl

theorem mkVerseTok_no_e (m : Nat) : 'e' ∉ mkVerseTok m := by
  simp only [mkVerseTok, List.mem_cons]
  rintro (h | h)
  · exact absurd h (by decide)
  · exact natChars_no_e m h

theorem mkRest_no_e (ms : List Nat) : 'e' ∉ mkRest ms := by
  induction ms with
  | nil => simp [mkRest]
  | cons m ms ih =>
    simp only [mkRest, List.mem_cons, List.mem_append]
    rintro (h | h | h)
    · exact absurd h (by decide)
    · exact mkVerseTok_no_e m h
    · exact ih h

theorem body_no_e (n : Nat) (ns : List Nat) :
    'e' ∉ mkVerseTok n ++ mkRest ns := by
  simp only [List.mem_append]
  rintro (h | h)
  · exact mkVerseTok_no_e n h
  · exact mkRest_no_e ns h

theorem countV_natChars (n : Nat) : countV (natChars n) = 0 := by
  unfold countV
  exact List.count_eq_zero.mpr (natChars_no_v n)

theorem countV_append (a b : List Char) :
    countV (a ++ b) = countV a + countV b := List.count_append 'v' a b

theorem countV_mkVerseTok (m : Nat) : countV (mkVerseTok m) = 1 := by
  unfold mkVerseTok countV
  rw [List.count_cons_self, List.count_eq_zero.mpr (natChars_no_v m)]

theorem countV_mkRest (ms : List Nat) : countV (mkRest ms) = ms.length := by
  induction ms with
  | nil => rfl
  | cons m ms ih =>
    show countV (' ' :: (mkVerseTok m ++ mkRest ms)) = ms.length + 1
    unfold countV
    rw [List.count_cons_of_ne (by decide), List.count_append]
    have h1 := countV_mkVerseTok m
    unfold countV at h1 ih
    omega

theorem countV_mkClass (n : Nat) (ns : List Nat) :
    countV (mkClass n ns) = 2 + ns.length := by
  unfold mkClass
  rw [countV_append, countV_append, countV_mkVerseTok, countV_mkRest]
  have : countV (("verse ").data) = 1 := by decide
  omega

theorem replaceVerseSpace_mkClass (n : Nat) (ns : List Nat) :
    replaceVerseSpace (mkClass n ns) = mkVerseTok n ++ mkRest ns := by
  have h1 : replaceVerseSpace (mkClass n ns) =
      replaceVerseSpace (mkVerseTok n ++ mkRest ns) := rfl
  rw [h1, replaceVerseSpace_of_not_e (body_no_e n ns)]

theorem stripV_mkVerseTok (m : Nat) :
    pyReplaceChar 'v' [] (mkVerseTok m) = natChars m := by
  show (if 'v' = 'v' then [] else ['v']) ++ pyReplaceChar 'v' [] (natChars m) = natChars m
  rw [if_pos rfl, pyReplaceChar_of_not_mem [] (natChars_no_v m)]
  rfl

theorem stripV_mkRest (ms : List Nat) :
    pyReplaceChar 'v' [] (mkRest ms) = mkDigitsRest ms := by
  induction ms with
  | nil => rfl
  | cons m ms ih =>
    show (if ' ' = 'v' then [] else [' ']) ++
        pyReplaceChar 'v' [] (mkVerseTok m ++ mkRest ms) = mkDigitsRest (m :: ms)
    rw [if_neg (by decide), pyReplaceChar_append, stripV_mkVerseTok, ih]
    rfl

theorem split_mkDigits (n : Nat) (ns : List Nat) :
    pySplitOn ' ' (natChars n ++ mkDigitsRest ns) =
      natChars n :: ns.map natChars := by
  induction ns generalizing n with
  | nil =>
    show pySplitOn ' ' (natChars n ++ []) = [natChars n]
    rw [List.append_nil]
    exact pySplitOn_of_not_mem (natChars_no_space n)
  | cons m ms ih =>
    show pySplitOn ' ' (natChars n ++ ' ' :: (natChars m ++ mkDigitsRest ms)) = _
    rw [pySplitOn_across _ (natChars_no_space n), ih m]
    rfl

theorem mapO_pyInt_natChars (ms : List Nat) :
    mapO pyInt (ms.map natChars) = some (ms.map (fun m => (m : Int))) := by
  induction ms with
  | nil => rfl
  | cons m ms ih => simp [mapO, pyInt_natChars, ih]

theorem foldl_min_cast (n : Nat) (ns : List Nat) :
    List.foldl min ((n : Nat) : Int) (ns.map (fun m => (m : Int))) =
      ((List.foldl min n ns : Nat) : Int) := by
  induction ns generalizing n with
  | nil => rfl
  | cons m ms ih =>
    show List.foldl min (min (n : Int) (m : Int)) _ = _
    rw [show min (n : Int) (m : Int) = ((min n m : Nat) : Int) from (Nat.cast_min n m).symm]
    exact ih (min n m)

theorem findMinVerse_mkClass (n : Nat) (ns : List Nat) :
    findMinVerse (mkClass n ns) = some ((List.foldl min n ns : Nat) : Int) := by
  unfold findMinVerse
  rw [replaceVerseSpace_mkClass, pyReplaceChar_append, stripV_mkVerseTok,
    stripV_mkRest, split_mkDigits]
  have hm : mapO pyInt (natChars n :: ns.map natChars) =
      some ((n : Int) :: ns.map (fun m => (m : Int))) := by
    have := mapO_pyInt_natChars (n :: ns)
    simpa using this
  rw [hm]
  show some (List.foldl min ((n : Nat) : Int) (ns.map (fun m => (m : Int)))) = _
  rw [foldl_min_cast]

/-- C2: with more than 2 occurrences of `v` in the qualifying class string
(a well-formed range class `verse v<n> v<m> …` with at least two tokens),
the verse number assigned is the minimum of the space-separated digit
groups obtained by stripping the `verse ` prefix and the `v` characters. -/
theorem c2_range_collapse (n : Nat) (ns : List Nat) (hne : ns ≠ [])
    (parent : Elem) (rest : List Elem) (hp : parent.cls = some (mkClass n ns)) :
    resolveVerse (parent :: rest) = .ok ((List.foldl min n ns : Nat) : Int) := by
  have hlen : 0 < ns.length := List.length_pos.mpr hne
  unfold resolveVerse
  simp only [hp]
  rw [if_neg (by rw [countV_mkClass]; omega)]
  unfold classToVerse
  rw [if_pos (by rw [countV_mkClass]; omega), findMinVerse_mkClass]

/-- Witness for C2 at the spec's example: the class string
`verse v12 v13 v14` assigns verse 12. -/
theorem c2_range_collapse_witness :
    mkClass 12 [13, 14] = ("verse v12 v13 v14").data ∧
    ([13, 14] : List Nat) ≠ [] ∧
    resolveVerse [⟨some (mkClass 12 [13, 14]), none⟩] = .ok (12 : Int) := by
  refine ⟨rfl, by decide, ?_⟩
  have h := c2_range_collapse 12 [13, 14] (by decide)
      ⟨some (mkClass 12 [13, 14]), none⟩ [] rfl
  exact h

/-! ## Ancestor walk (claim C3) -/

theorem startsVerseVB_append (x : List Char) :
    startsVerseVB (("verse v").data ++ x) = true :=
  pyStartsWith_append_self (("verse v").data) x

/-- When every element of `pre` has a class attribute that does not start
with `verse v`, the walk continues past it and returns the first qualifying
element. -/
theorem findVerseParent_finds (pre : List Elem) (target : Elem)
    (above : List Elem)
    (hpre : ∀ e ∈ pre, ∃ c, e.cls = some c ∧ startsVerseVB c = false)
    (ct : List Char) (htc : target.cls = some ct)
    (hs : startsVerseVB ct = true) :
    findVerseParent (pre ++ target :: above) = .ok target := by
  induction pre with
  | nil =>
    show findVerseParent (target :: above) = .ok target
    unfold findVerseParent
    simp only [htc]
    rw [if_pos hs]
  | cons e pre ih =>
    obtain ⟨c, hc, hns⟩ := hpre e (List.mem_cons_self e pre)
    show findVerseParent (e :: (pre ++ target :: above)) = .ok target
    unfold findVerseParent
    simp only [hc]
    rw [if_neg (by simp [hns])]
    exact ih (fun e' he' => hpre e' (List.mem_cons_of_mem _ he'))

/-- Parsing a single-token class `verse v<n>` (exactly 2 `v` characters)
takes the `int(cls.replace('verse v',''))` branch and yields `n`. -/
theorem classToVerse_single (n : Nat) :
    classToVerse (("verse v").data ++ natChars n) = .ok ((n : Nat) : Int) := by
  unfold classToVerse
  have hcount : countV (("verse v").data ++ natChars n) = 2 := by
    rw [countV_append, countV_natChars]
    decide
  rw [if_neg (by rw [hcount]; omega)]
  have h1 : replaceVerseV (("verse v").data ++ natChars n) =
      replaceVerseV (natChars n) := rfl
  rw [h1, replaceVerseV_of_not_e (natChars_no_e n), pyInt_natChars]

/-- C3 (amended): a leaf whose immediate parent's class has fewer than two
`v` characters is resolved by walking up to the nearest ancestor whose
class starts with `verse v` (all walked-over ancestors having
non-qualifying class attributes), and its text is assigned the verse
number parsed from that ancestor's single-token class. -/
theorem c3_ancestor_walk (b0 : Elem) (c0 : List Char) (hb0c : b0.cls = some c0)
    (hb0 : countV c0 < 2) (below : List Elem)
    (hbelow : ∀ e ∈ b0 :: below, ∃ c, e.cls = some c ∧ startsVerseVB c = false)
    (target : Elem) (n : Nat)
    (ht : target.cls = some (("verse v").data ++ natChars n))
    (above : List Elem) (t : List Char) :
    resolveLeaf ⟨some t, b0 :: (below ++ target :: above)⟩ =
      .ok (((n : Nat) : Int), t) := by
  unfold resolveLeaf
  have hv : resolveVerse (b0 :: (below ++ target :: above)) =
      .ok ((n : Nat) : Int) := by
    unfold resolveVerse
    simp only [hb0c]
    rw [if_pos hb0]
    have hw := findVerseParent_finds (b0 :: below) target above hbelow _ ht
      (startsVerseVB_append (natChars n))
    rw [show b0 :: (below ++ target :: above) =
      (b0 :: below) ++ target :: above from rfl, hw]
    simp only [ht]
    exact classToVerse_single n
  rw [hv]

/-- Witness for C3 (amended) at the spec's example: parent class
`content-wrapper`, grandparent class `verse v7`, text assigned to verse 7. -/
theorem c3_ancestor_walk_witness :
    countV (("content-wrapper").data) < 2 ∧
    resolveLeaf ⟨some (("hi").data),
      [⟨some (("content-wrapper").data), none⟩,
       ⟨some (("verse v7").data), none⟩]⟩ = .ok ((7 : Int), ("hi").data) := by
  refine ⟨by decide, ?_⟩
  have h := c3_ancestor_walk ⟨some (("content-wrapper").data), none⟩
    (("content-wrapper").data) rfl (by decide) []
    (by
      intro e he
      simp only [List.mem_singleton] at he
      subst he
      exact ⟨(("content-wrapper").data), rfl, by decide⟩)
    ⟨some (("verse v7").data), none⟩ 7 rfl [] (("hi").data)
  exact h

/-- C3 (counterexample): a leaf whose immediate parent class is
`divine love` — zero verse-class tokens of shape `v<digit>`, but two `v`
characters — is *not* resolved through its qualifying grandparent
`verse v7`; the extractor instead tries `int('divine love')` and the
chapter fails with `ValueError`. -/
theorem c3_counterexample :
    extractChapter [⟨some (("foo").data),
      [⟨some (("divine love").data), none⟩,
       ⟨some (("verse v7").data), none⟩]⟩] =
      .error ⟨.valueError, []⟩ := rfl

/-! ## The adjacency rule (claim C1) -/

theorem lastOpt_eq_none {α : Type} {l : List α} : lastOpt l = none ↔ l = [] := by
  induction l with
  | nil => simp [lastOpt]
  | cons x xs ih =>
    cases xs with
    | nil => simp [lastOpt]
    | cons y ys =>
      rw [show lastOpt (x :: y :: ys) = lastOpt (y :: ys) from rfl]
      simp only [ih]
      simp

theorem versesFold_snd (ps : List (Int × List Char))
    (st : List (Int × List Char) × Option Int) :
    (List.foldl versesStep st ps).2 =
      (match lastOpt (ps.map Prod.fst) with
       | none => st.2
       | some x => some x) := by
  induction ps generalizing st with
  | nil => rfl
  | cons p ps ih =>
    rw [List.foldl_cons, ih]
    cases ps with
    | nil => rfl
    | cons q qs =>
      rw [show lastOpt ((p :: q :: qs).map Prod.fst) =
        lastOpt ((q :: qs).map Prod.fst) from rfl]
      cases h : lastOpt ((q :: qs).map Prod.fst) with
      | none =>
        exact absurd (lastOpt_eq_none.mp h) (by simp)
      | some x => rfl

/-- C1: during the accumulation over resolved leaf spans in scan order, the
trimmed text of a span assigned verse `v` is appended to `verses[v]` with a
single space prepended exactly when the immediately preceding span was
assigned the same verse number `v` (no separator otherwise, including for
the first span). -/
theorem c1_adjacency (pre : List (Int × List Char)) (v : Int) (t : List Char) :
    versesMapOf (pre ++ [(v, t)]) =
      appendVal (versesMapOf pre) v
        ((if lastOpt (pre.map Prod.fst) = some v then [' '] else []) ++ pyStrip t) := by
  have hsnd : (List.foldl versesStep ([], none) pre).2 =
      lastOpt (pre.map Prod.fst) := by
    rw [versesFold_snd]
    cases lastOpt (pre.map Prod.fst) <;> rfl
  have hmain : versesMapOf (pre ++ [(v, t)]) =
      appendVal (versesMapOf pre) v
        (if (List.foldl versesStep ([], none) pre).2 = some v
         then ' ' :: pyStrip t else pyStrip t) := by
    unfold versesMapOf
    rw [List.foldl_append]
    rfl
  rw [hmain, hsnd]
  by_cases h : lastOpt (pre.map Prod.fst) = some v <;> simp [h]

/-! ## Keys of the verses mapping (claim C6) -/

theorem appendVal_keys {m : List (Int × List Char)} {k : Int} {s : List Char}
    {x : Int} (h : x ∈ (appendVal m k s).map Prod.fst) :
    x ∈ m.map Prod.fst ∨ x = k := by
  induction m with
  | nil =>
    simp only [appendVal, List.map_cons, List.map_nil, List.mem_singleton] at h
    exact Or.inr h
  | cons p rest ih =>
    rw [show appendVal (p :: rest) k s =
      (if p.1 = k then (p.1, p.2 ++ s) :: rest
       else (p.1, p.2) :: appendVal rest k s) from by
        cases p; rfl] at h
    by_cases hk : p.1 = k
    · rw [if_pos hk] at h
      simp only [List.map_cons, List.mem_cons] at h ⊢
      rcases h with h | h
      · exact Or.inl (Or.inl h)
      · exact Or.inl (Or.inr h)
    · rw [if_neg hk] at h
      simp only [List.map_cons, List.mem_cons] at h ⊢
      rcases h with h | h
      · exact Or.inl (Or.inl h)
      · rcases ih h with h2 | h2
        · exact Or.inl (Or.inr h2)
        · exact Or.inr h2

theorem versesFold_keys (ps : List (Int × List Char))
    (st : List (Int × List Char) × Option Int) {x : Int}
    (h : x ∈ (List.foldl versesStep st ps).1.map Prod.fst) :
    x ∈ st.1.map Prod.fst ∨ x ∈ ps.map Prod.fst := by
  induction ps generalizing st with
  | nil => exact Or.inl h
  | cons p ps ih =>
    rw [List.foldl_cons] at h
    rcases ih (versesStep st p) h with h2 | h2
    · rcases appendVal_keys h2 with h3 | h3
      · exact Or.inl h3
      · exact Or.inr (by simp [h3])
    · exact Or.inr (List.mem_cons_of_mem _ h2)

/-- C6 (amended): every key of the verses mapping produced by parsing was
assigned by at least one leaf content span; iteration and `len` do not
change the mapping — but `__getitem__`/`get_verse` on a missing key insert
it (see the counterexample). -/
theorem c6_parse_keys (ps : List (Int × List Char)) (k : Int)
    (h : k ∈ (versesMapOf ps).map Prod.fst) : k ∈ ps.map Prod.fst := by
  rcases versesFold_keys ps ([], none) h with h2 | h2
  · exact absurd h2 (by simp)
  · exact h2

/-- Witness for C6 (amended) at a one-span chapter. -/
theorem c6_parse_keys_witness :
    (1 : Int) ∈ (versesMapOf [((1 : Int), ("In").data)]).map Prod.fst ∧
    (1 : Int) ∈ ([((1 : Int), ("In").data)]).map Prod.fst :=
  ⟨by decide, c6_parse_keys [((1 : Int), ("In").data)] 1 (by decide)⟩

/-- C6 (counterexample): indexing a chapter at an absent verse number
(`chapter[999]`, or `get_verse(999)`) inserts key `999` with empty text
into the verses mapping — a key that had zero extracted text nodes — so
the claimed invariant does not survive `__getitem__`. -/
theorem c6_counterexample :
    (chapterGetItem (versesMapOf [((1 : Int), ("In").data)]) 999).2 =
      [((1 : Int), ("In").data), ((999 : Int), [])] ∧
    (999 : Int) ∉ ([((1 : Int), ("In").data)]).map Prod.fst :=
  ⟨rfl, by decide⟩

/-! ## Malformed markup (claim C4) -/

theorem findVerseParent_err {l : List Elem}
    (h : ∀ e ∈ l, ∀ c, e.cls = some c → startsVerseVB c = false) :
    isErrB (findVerseParent l) = true := by
  induction l with
  | nil => rfl
  | cons e rest ih =>
    cases h1 : e.cls with
    | none =>
      cases h2 : e.text with
      | none => simp [findVerseParent, h1, h2, isErrB]
      | some t =>
        by_cases h3 : pyStrip t = [] <;>
          simp [findVerseParent, h1, h2, h3, isErrB]
    | some c =>
      have hns := h e (List.mem_cons_self e rest) c h1
      rw [show findVerseParent (e :: rest) =
        (if startsVerseVB c then Except.ok e else findVerseParent rest) from by
          simp [findVerseParent, h1]]
      rw [hns, if_neg (by simp)]
      exact ih (fun e' he' => h e' (List.mem_cons_of_mem _ he'))

theorem resolveVerse_err {anc : List Elem}
    (hpar : ∀ p rest0, anc = p :: rest0 →
      (p.cls = none ∨ ∃ c0, p.cls = some c0 ∧ countV c0 < 2))
    (hnone : ∀ e ∈ anc, ∀ c, e.cls = some c → startsVerseVB c = false) :
    isErrB (resolveVerse anc) = true := by
  cases anc with
  | nil => rfl
  | cons p rest =>
    rcases hpar p rest rfl with h1 | ⟨c0, h1, h2⟩
    · simp [resolveVerse, h1, isErrB]
    · have hw := findVerseParent_err hnone
      cases hfv : findVerseParent (p :: rest) with
      | error f => simp [resolveVerse, h1, h2, hfv, isErrB]
      | ok q => rw [hfv] at hw; exact absurd hw (by simp [isErrB])

theorem mapE_err_of_mem {ε α β : Type} {f : α → Except ε β} {l : List α}
    {x : α} (hmem : x ∈ l) (herr : isErrB (f x) = true) :
    isErrB (mapE f l) = true := by
  induction l with
  | nil => exact absurd hmem (by simp)
  | cons y ys ih =>
    rcases List.mem_cons.mp hmem with h | h
    · subst h
      cases hf : f x with
      | error e => simp [mapE, hf, isErrB]
      | ok v => rw [hf] at herr; exact absurd herr (by simp [isErrB])
    · cases hf : f y with
      | error e => simp [mapE, hf, isErrB]
      | ok v =>
        cases hm : mapE f ys with
        | error e => simp [mapE, hf, hm, isErrB]
        | ok vs => rw [hm] at ih; exact absurd (ih h) (by simp [isErrB])

/-- C4 (amended): a chapter fragment containing a content leaf span whose
immediate parent's class attribute is absent or has fewer than two `v`
characters, and none of whose ancestors has a class attribute starting
with `verse v`, makes the whole extraction raise — no chapter result is
produced.  (The offending text and attributes are printed only in the
sub-case where the walk stops at an element that lacks a class attribute
and whose text strips non-empty; when the walk runs past the document
root, the handler itself fails before printing.) -/
theorem c4_no_ancestor_err (leaves : List Leaf) (lf : Leaf) (hmem : lf ∈ leaves)
    (hpar : ∀ p rest0, lf.anc = p :: rest0 →
      (p.cls = none ∨ ∃ c0, p.cls = some c0 ∧ countV c0 < 2))
    (hnone : ∀ e ∈ lf.anc, ∀ c, e.cls = some c → startsVerseVB c = false) :
    isErrB (extractChapter leaves) = true := by
  have hrl : isErrB (resolveLeaf lf) = true := by
    have hrv := resolveVerse_err hpar hnone
    cases hv : resolveVerse lf.anc with
    | error f => simp [resolveLeaf, hv, isErrB]
    | ok v => rw [hv] at hrv; exact absurd hrv (by simp [isErrB])
  have hme := mapE_err_of_mem hmem hrl
  cases hm : mapE resolveLeaf leaves with
  | error f => simp [extractChapter, hm, isErrB]
  | ok ps => rw [hm] at hme; exact absurd hme (by simp [isErrB])

/-- Witness for C4 (amended): a leaf under a single `wrapper`-classed
ancestor aborts the chapter. -/
theorem c4_no_ancestor_err_witness :
    isErrB (extractChapter
      [⟨some (("x").data), [⟨some (("wrapper").data), none⟩]⟩]) = true := by
  apply c4_no_ancestor_err _
    (⟨some (("x").data), [⟨some (("wrapper").data), none⟩]⟩ : Leaf)
    (List.mem_singleton.mpr rfl)
  · intro p rest0 hp
    injection hp with hp1 hp2
    subst hp1
    exact Or.inr ⟨(("wrapper").data), rfl, by decide⟩
  · intro e he c hc
    simp only [List.mem_singleton] at he
    subst he
    injection hc with hc1
    subst hc1
    decide

/-- C4 (counterexample): a content leaf span with *no* ancestor whose class
starts with `verse v` does not necessarily raise: a parent class of
`v1 v2 v3` has three `v` characters, skips the ancestor walk entirely, and
the chapter extraction *succeeds*, assigning the text to verse 1 — against
the claim that such a fragment raises and yields no chapter result. -/
theorem c4_counterexample :
    extractChapter [⟨some (("hi").data), [⟨some (("v1 v2 v3").data), none⟩]⟩] =
      .ok [((1 : Int), ("hi").data)] := rfl

/-! ## Scheduler failure and the partial book write (claim C5) -/

theorem getAsyncChapters_err
    {fetchCh : Nat → Except Failure (List (Int × List Char))} {len ch : Nat}
    (h1 : 1 ≤ ch) (h2 : ch ≤ len) (he : isErrB (fetchCh ch) = true) :
    isErrB (getAsyncChapters fetchCh len) = true := by
  unfold getAsyncChapters
  apply mapE_err_of_mem (x := ch)
  · rw [List.mem_range']
    exact ⟨ch - 1, by omega, by omega⟩
  · cases hf : fetchCh ch with
    | error e => simp [isErrB]
    | ok m => rw [hf] at he; exact absurd he (by simp [isErrB])

/-- C5 (amended): if any single chapter of the (first) book fails, the
failure propagates out of the chapter scheduler, no chapter map is
returned, and no chapter or verse content is written for the book — but
the file at that point already holds the header and the book's opening
`BIBLEBOOK` line, so a write for that book *has* occurred and a partial
file is left behind. -/
theorem c5_fail_propagates (b : BibleS)
    (fetch : List Char → Nat → Except Failure (List (Int × List Char)))
    (first : Book) (rest : List Book) (hb : b.books = first :: rest)
    (ch : Nat) (h1 : 1 ≤ ch) (h2 : ch ≤ first.length)
    (he : isErrB (fetch first.id ch) = true) :
    isErrB (getAsyncChapters (fetch first.id) first.length) = true ∧
    (writeFile b fetch).1 = headerStr b ++ bookLine 1 first ∧
    (writeFile b fetch).2.isSome = true := by
  have hga := getAsyncChapters_err h1 h2 he
  obtain ⟨e, hee⟩ : ∃ e, getAsyncChapters (fetch first.id) first.length =
      .error e := by
    cases hx : getAsyncChapters (fetch first.id) first.length with
    | error e => exact ⟨e, rfl⟩
    | ok v => rw [hx] at hga; exact absurd hga (by simp [isErrB])
  have hgo : writeFileGo fetch first 1 (first :: rest) =
      (bookLine 1 first, some e) := by
    unfold writeFileGo
    rw [hee]
  have hwf : writeFile b fetch = (headerStr b ++ bookLine 1 first, some e) := by
    unfold writeFile
    rw [hb]
    dsimp only
    rw [hgo]
  exact ⟨hga, by rw [hwf], by rw [hwf]; rfl⟩

/-- Concrete one-book bible whose chapter 3 fails during fetch+extract. -/
def gen5 : Book :=
  ⟨1, 5, ("GEN").data, ("Gen").data, ("Genesis").data⟩

/-- Concrete one-book `Bible` object for the scheduler scenario. -/
def bible5 : BibleS :=
  ⟨1, ("B").data, ("BB").data, ("A").data, ("spa").data, ("D").data,
   [(("GEN").data, 0)], [gen5]⟩

/-- Chapter fetch where chapter 3 raises (the `MalformedMarkupError`
scenario: `findVerseParent` dies with an `AttributeError`). -/
def fetch5 (_ : List Char) (ch : Nat) : Except Failure (List (Int × List Char)) :=
  if ch = 3 then .error ⟨.attributeError, []⟩ else .ok [(1, ("x").data)]

/-- Witness for C5 (amended) at the spec's scheduler scenario (book of 5
chapters, chapter 3 fails). -/
theorem c5_fail_propagates_witness :
    isErrB (getAsyncChapters (fetch5 gen5.id) gen5.length) = true ∧
    (writeFile bible5 fetch5).1 = headerStr bible5 ++ bookLine 1 gen5 ∧
    (writeFile bible5 fetch5).2.isSome = true :=
  c5_fail_propagates bible5 fetch5 gen5 [] rfl 3 (by decide) (by decide) rfl

set_option maxRecDepth 20000 in
/-- C5 (counterexample): in that same scenario the failure does propagate,
but a file write for the failing book *has already happened*: the written
content ends with the book's `<BIBLEBOOK …>` opening line. -/
theorem c5_counterexample :
    (writeFile bible5 fetch5).2 = some ⟨.attributeError, []⟩ ∧
    containsSub (writeFile bible5 fetch5).1 (("<BIBLEBOOK").data) = true :=
  ⟨rfl, rfl⟩

/-! ## Writer indentation (claim C9) -/

theorem leadingSpaces_replicate (k : Nat) (l : List Char) :
    leadingSpaces (List.replicate k ' ' ++ l) = k + leadingSpaces l := by
  induction k with
  | zero => simp
  | succ k ih =>
    rw [List.replicate_succ, List.cons_append]
    have h1 : ∀ x, leadingSpaces (' ' :: x) = leadingSpaces x + 1 :=
      fun x => by simp [leadingSpaces]
    rw [h1, ih]
    omega

/-- C9 (amended): in the written output, `BIBLEBOOK` lines are indented by
2 spaces and `CHAPTER` lines by 4, but `VERS` lines carry 7 leading spaces
(the 6-space indent plus one further space inside the f-string template),
not 6. -/
theorem c9_indentation (idx : Nat) (bk : Book) (ch : Nat) (v : Int)
    (t : List Char) :
    leadingSpaces (bookLine idx bk) = 2 ∧
    leadingSpaces (chOpen ch) = 4 ∧
    leadingSpaces (versLine v t) = 7 ∧
    leadingSpaces chClose = 4 ∧
    leadingSpaces bookClose = 2 := by
  refine ⟨?_, ?_, ?_, rfl, rfl⟩
  · unfold bookLine spaces
    rw [show ("<BIBLEBOOK bnumber=\"").data =
      '<' :: ("BIBLEBOOK bnumber=\"").data from rfl]
    simp only [List.append_assoc, List.cons_append]
    rw [leadingSpaces_replicate,
      show ∀ x, leadingSpaces ('<' :: x) = 0 from fun x => rfl]
  · unfold chOpen spaces
    rw [show ("<CHAPTER cnumber=\"").data =
      '<' :: ("CHAPTER cnumber=\"").data from rfl]
    simp only [List.append_assoc, List.cons_append]
    rw [leadingSpaces_replicate,
      show ∀ x, leadingSpaces ('<' :: x) = 0 from fun x => rfl]
  · unfold versLine spaces
    rw [show (" <VERS vnumber=\"").data =
      ' ' :: '<' :: ("VERS vnumber=\"").data from rfl]
    simp only [List.append_assoc, List.cons_append]
    rw [leadingSpaces_replicate,
      show ∀ x, leadingSpaces (' ' :: '<' :: x) = 1 from fun x => rfl]

/-- Concrete successful one-book, one-chapter, one-verse bible. -/
def gen9 : Book :=
  ⟨1, 1, ("GEN").data, ("Gen").data, ("Genesis").data⟩

/-- Concrete `Bible` object for the indentation scenario. -/
def bible9 : BibleS :=
  ⟨1, ("B").data, ("BB").data, ("A").data, ("spa").data, ("D").data,
   [(("GEN").data, 0)], [gen9]⟩

/-- Chapter fetch that always succeeds with one verse. -/
def fetch9 (_ : List Char) (_ : Nat) : Except Failure (List (Int × List Char)) :=
  .ok [(1, ("In").data)]

set_option maxRecDepth 40000 in
/-- C9 (counterexample): in a successfully written file, the `VERS` line is
indented by 7 spaces, not the claimed 6 (while `BIBLEBOOK` and `CHAPTER`
lines do carry 2 and 4). -/
theorem c9_counterexample :
    (writeFile bible9 fetch9).2 = none ∧
    tagIndents (writeFile bible9 fetch9).1 (("<VERS").data) = [7] ∧
    tagIndents (writeFile bible9 fetch9).1 (("<BIBLEBOOK").data) = [2] ∧
    tagIndents (writeFile bible9 fetch9).1 (("<CHAPTER").data) = [4] :=
  ⟨rfl, rfl, rfl, rfl⟩

/-! ## Unescaper semantics (claim C7) -/

theorem utf8Bytes_ascii {c : Char} (h : c.toNat < 128) :
    utf8Bytes c = [c.toNat] := by
  unfold utf8Bytes
  rw [if_pos h]

theorem utf8Encode_ascii {s : List Char} (h : ∀ c ∈ s, c.toNat < 128) :
    utf8Encode s = s.map Char.toNat := by
  induction s with
  | nil => rfl
  | cons c cs ih =>
    show utf8Bytes c ++ utf8Encode cs = _
    rw [utf8Bytes_ascii (h c (List.mem_cons_self c cs)),
      ih (fun c' hc' => h c' (List.mem_cons_of_mem _ hc'))]
    rfl

theorem utf8Encode_append (a b : List Char) :
    utf8Encode (a ++ b) = utf8Encode a ++ utf8Encode b := by
  induction a with
  | nil => rfl
  | cons c cs ih =>
    show utf8Bytes c ++ utf8Encode (cs ++ b) = (utf8Bytes c ++ utf8Encode cs) ++ _
    rw [ih, List.append_assoc]

theorem uescapeGo_cons_ne (f b : Nat) (rest : List Nat) (hb : b ≠ 92) :
    uescapeGo (f + 1) (b :: rest) = (uescapeGo f rest).map (fun t => b :: t) := by
  rw [uescapeGo.eq_3, if_neg hb]

/-- Pass-through of escape-free bytes: `unicode_escape` maps each byte
outside an escape to the code point equal to the byte value. -/
theorem uescape_append (bs t : List Nat) (h : ∀ b ∈ bs, b ≠ 92) :
    uescape (bs ++ t) = (uescape t).map (fun x => bs ++ x) := by
  induction bs with
  | nil =>
    rw [List.nil_append]
    cases hx : uescape t
    · rfl
    · rfl
  | cons b bs ih =>
    have hb := h b (List.mem_cons_self b bs)
    have h2 : ∀ b' ∈ bs, b' ≠ 92 := fun b' hb' => h b' (List.mem_cons_of_mem _ hb')
    unfold uescape
    rw [List.cons_append]
    rw [show (b :: (bs ++ t)).length = (bs ++ t).length + 1 from by simp]
    rw [uescapeGo_cons_ne _ _ _ hb]
    have ih2 := ih h2
    unfold uescape at ih2
    rw [ih2, Option.map_map]
    rfl

/-- C7 (amended): over ASCII escaped input the unescaper resolves
backslash escapes under standard semantics (backslash-free text passes
through; `\n`, `\"`, `\uXXXX` resolve to the escaped code point) and fails
on truncated escapes; non-escape bytes are interpreted as Latin-1 (code
point = byte value) with no UTF-8 reinterpretation after escape
resolution (see the counterexample). -/
theorem c7_escape_semantics (s : List Char)
    (h : ∀ c ∈ s, c.toNat < 128 ∧ c.toNat ≠ 92) :
    decodeHtml s = some (s.map Char.toNat) ∧
    decodeHtml (s ++ ('\\' :: 'n' :: [])) = some (s.map Char.toNat ++ [10]) ∧
    decodeHtml (s ++ ('\\' :: '"' :: [])) = some (s.map Char.toNat ++ [34]) ∧
    decodeHtml (s ++ ('\\' :: 'u' :: '0' :: '0' :: 'e' :: '9' :: [])) =
      some (s.map Char.toNat ++ [233]) ∧
    decodeHtml (s ++ ('\\' :: 'u' :: '1' :: '2' :: [])) = none := by
  have hasc : ∀ c ∈ s, c.toNat < 128 := fun c hc => (h c hc).1
  have hne : ∀ b ∈ s.map Char.toNat, b ≠ 92 := by
    intro b hb
    obtain ⟨c, hc, hbc⟩ := List.mem_map.mp hb
    exact hbc ▸ (h c hc).2
  have htail : ∀ (tl : List Char),
      decodeHtml (s ++ tl) =
        (uescape (utf8Encode tl)).map (fun x => s.map Char.toNat ++ x) := by
    intro tl
    unfold decodeHtml
    rw [utf8Encode_append, utf8Encode_ascii hasc, uescape_append _ _ hne]
  refine ⟨?_, ?_, ?_, ?_, ?_⟩
  · have h0 := htail []
    rw [List.append_nil] at h0
    rw [h0]
    show some (s.map Char.toNat ++ []) = _
    rw [List.append_nil]
  · rw [htail]; rfl
  · rw [htail]; rfl
  · rw [htail]; rfl
  · rw [htail]; rfl

/-- Witness for C7 (amended) at a concrete ASCII input. -/
theorem c7_escape_semantics_witness :
    (∀ c ∈ (("ok").data), c.toNat < 128 ∧ c.toNat ≠ 92) ∧
    decodeHtml (("ok").data) = some ((("ok").data).map Char.toNat) ∧
    decodeHtml (("ok").data ++ ('\\' :: 'u' :: '1' :: '2' :: [])) = none := by
  have h := c7_escape_semantics (("ok").data) (by decide)
  exact ⟨by decide, h.1, h.2.2.2.2⟩

/-- C7 (counterexample): `decodeHtml` applied to the literal text `é`
(U+00E9, no escapes at all) yields the two Latin-1 code points of its
UTF-8 bytes (`Ã©`), not the literal text back — the byte sequence is
*not* reinterpreted as UTF-8 after escape resolution. -/
theorem c7_counterexample :
    decodeHtml [Char.ofNat 233] = some (195 :: 169 :: []) ∧
    (195 :: 169 :: []) ≠ (233 :: []) :=
  ⟨rfl, by decide⟩

/-! ## Standalone book construction (claim C8) -/

/-- C8 (code bug): constructing a `Bible.Book` without a chapter count
always raises `AttributeError` — the fallback reads `self.id` before the
`self.id = book_id` assignment — so the chapter count is never recovered
from the metadata fetch, contrary to the class's own docstring. -/
theorem c8_standalone_attribute_error (book_id name_book : List Char)
    (bible_id : Int) (abrev : Option (List Char))
    (fetchVersion : Int → VersionData) :
    bookInit book_id name_book bible_id none abrev fetchVersion =
      .error .attributeError := rfl

/-! ## Missing-key lookup (claim C10) -/

theorem lookupLast_none {m : List (List Char × Nat)} {key : List Char}
    (h : ∀ p ∈ m, p.1 ≠ key) : lookupLast m key = none := by
  induction m with
  | nil => rfl
  | cons p rest ih =>
    have h2 : ∀ q ∈ rest, q.1 ≠ key := fun q hq => h q (List.mem_cons_of_mem _ hq)
    show (match lookupLast rest key with
      | some r => some r
      | none => if p.1 = key then some p.2 else none) = none
    rw [ih h2, if_neg (h p (List.mem_cons_self p rest))]

theorem buildMap_keys {ms : List BookMeta} {i : Nat} {p : List Char × Nat}
    (h : p ∈ buildMap i ms) : ∃ m ∈ ms, p.1 = m.usfm := by
  induction ms generalizing i with
  | nil => exact absurd h (by simp [buildMap])
  | cons m rest ih =>
    rcases List.mem_cons.mp h with h1 | h1
    · exact ⟨m, List.mem_cons_self m rest, by rw [h1]⟩
    · obtain ⟨m', hm', hp⟩ := ih h1
      exact ⟨m', List.mem_cons_of_mem _ hm', hp⟩

/-- C10 (amended): for a `Bible` built from version metadata with at least
one book, `get_book` (and `bible[key]`) on a key that is no book's usfm
code returns the *first* book rather than raising — the `defaultdict(int)`
backing the code-to-index map yields index 0 for missing keys. -/
theorem c10_default_first (bible_id : Int) (data : VersionData) (b : BibleS)
    (hinit : bibleInit bible_id data = .ok b) (key : List Char)
    (hkey : ∀ m ∈ data.books, m.usfm ≠ key) (fb : Book)
    (hfb : b.books.head? = some fb) :
    get_book b key = .ok fb := by
  have hnone : lookupLast b.hashMap key = none := by
    have hmap : b.hashMap = buildMap 0 data.books := by
      unfold bibleInit at hinit
      cases hm : mapE (fun m => bookInit m.usfm m.human_long bible_id
          (some (countCanonical m.chapters)) m.abbreviation (fun _ => data))
          data.books with
      | error e => rw [hm] at hinit; exact absurd hinit (by simp)
      | ok books =>
        rw [hm] at hinit
        injection hinit with hinit
        rw [← hinit]
    rw [hmap]
    apply lookupLast_none
    intro p hp
    obtain ⟨m, hm, hpm⟩ := buildMap_keys hp
    rw [hpm]
    exact hkey m hm
  unfold get_book
  rw [hnone]
  cases hbks : b.books with
  | nil => rw [hbks] at hfb; exact absurd hfb (by simp)
  | cons b0 bs =>
    rw [hbks] at hfb
    simp only [List.head?] at hfb
    injection hfb with hfb
    simp [hfb]

/-- Concrete version metadata with a single book. -/
def vd1 : VersionData :=
  ⟨("T").data, ("TT").data, ("P").data, ("spa").data, ("C").data,
   [⟨("GEN").data, ("Genesis").data, [true, true], some ("Gen.").data⟩]⟩

/-- The book `bibleInit` builds from `vd1` (abbreviation dots stripped,
2 canonical chapters). -/
def genC : Book := ⟨1, 2, ("GEN").data, ("Gen").data, ("Genesis").data⟩

/-- The `Bible` object `bibleInit` builds from `vd1`. -/
def bC : BibleS :=
  ⟨1, ("T").data, ("TT").data, ("P").data, ("spa").data, ("C").data,
   [(("GEN").data, 0)], [genC]⟩

/-- Witness for C10 (amended): an unknown key on a one-book bible returns
that first book. -/
theorem c10_default_first_witness :
    get_book bC (("XYZ").data) = .ok genC :=
  c10_default_first 1 vd1 bC rfl (("XYZ").data) (by decide) genC rfl

/-- Concrete version metadata whose book list is empty. -/
def emptyVD : VersionData :=
  ⟨("T").data, ("TT").data, ("P").data, ("spa").data, ("C").data, []⟩

/-- C10 (counterexample): on a `Bible` instance whose version metadata
lists no books, a missing key still defaults to index 0, but
`self.books[0]` then raises `IndexError` — there is no first book to
return, so the claim's unrestricted \"for every Bible instance\" fails. -/
theorem c10_counterexample :
    Except.map (fun b => get_book b (("GEN").data)) (bibleInit 1 emptyVD) =
      .ok (.error .indexError) := rfl

end Zef
